import Mathlib

/-!
# Verification of the json-rules-engine core

Shallow embedding of the `json-rules-engine` crate. The crate root
(`src/lib.rs`) declares exactly two modules, `mod core;` and `mod error;`,
so the authoritative implementation of `Status`, `Condition`, `Constraint`,
`Rule` and `Engine` is `src/core.rs` (the file `src/constraint.rs` is not
part of the compiled crate: no `mod constraint;` / `mod status;` exists).

Modelling conventions:
* `serde_json::Value` is modelled by the inductive `Json`.  JSON numbers are
  either integers (serde's `PosInt`/`NegInt` representations) or doubles.
  Double payloads are modelled as exact rationals: `src/core.rs` only ever
  *compares* doubles (`==`, `!=`, `<`, `<=`, `>`, `>=`, membership), and on
  the finite, non-NaN doubles that `serde_json` can represent these
  comparisons agree with the rational order of the exact values.  The lossy
  rounding of `i64 as f64` for |n| ≥ 2^53 in `as_f64` is not modelled; no
  theorem below depends on the numeric value an integer converts to.
* `Instant` timestamps and `elapsed().as_secs()` are modelled by `Nat`
  seconds; `start.elapsed().as_secs() < expiration` becomes
  `now - start < expiration` (truncating subtraction, as in the source).
* The mustache templating engine is an external collaborator; it is passed
  to `Rule.check_value` as a function `render : String → Json → Option String`
  (`none` models a `compile_str`/`render_to_string` error).
* HTTP/email dispatch is external; `Engine.run` receives an outcome oracle
  `dispatch : Event → Bool` whose results it discards, mirroring
  `let _ = join_all(requests).await;` in the source.
* The `eval` and `email` cargo features are disabled in the default build;
  the corresponding `#[cfg(feature = ...)]`-gated variants are omitted.
-/

-- ***********************************************************************
-- STATUS (src/core.rs lines 40-82)
-- ***********************************************************************

/-- The status of a rule check (`enum Status` in src/core.rs). -/
inductive Status where
  | Met
  | NotMet
  | Unknown
deriving DecidableEq, Repr

/-- `impl BitAnd for Status` (src/core.rs lines 50-59).  Match arms are
translated in source order; Lean's ordered patterns replicate Rust's
first-match semantics. -/
def Status.bitand : Status → Status → Status
  | .Met, .Met => .Met
  | .NotMet, _ => .NotMet
  | _, .NotMet => .NotMet
  | _, _ => .Unknown

/-- `impl BitOr for Status` (src/core.rs lines 61-70). -/
def Status.bitor : Status → Status → Status
  | .NotMet, .NotMet => .NotMet
  | .Met, _ => .Met
  | _, .Met => .Met
  | _, _ => .Unknown

/-- `impl Not for Status` (src/core.rs lines 72-82). -/
def Status.not : Status → Status
  | .Met => .NotMet
  | .NotMet => .Met
  | .Unknown => .Unknown

-- ***********************************************************************
-- JSON VALUES (serde_json::Value)
-- ***********************************************************************

/-- A `serde_json::Number`: an integer (`PosInt`/`NegInt`) or a double.
Doubles are carried as exact rationals (see the header comment). -/
inductive JsonNum where
  | int (n : Int)
  | float (q : ℚ)
deriving DecidableEq, Repr

/-- `serde_json::Value`.  Objects are association lists in insertion order
with distinct keys (serde's map); lookups take the first match. -/
inductive Json where
  | null
  | bool (b : Bool)
  | num (n : JsonNum)
  | str (s : String)
  | arr (items : List Json)
  | obj (fields : List (String × Json))

/-- `Value::as_str`. -/
def Json.as_str : Json → Option String
  | .str s => some s
  | _ => none

/-- `Value::as_bool`. -/
def Json.as_bool : Json → Option Bool
  | .bool b => some b
  | _ => none

/-- `Value::as_array`. -/
def Json.as_array : Json → Option (List Json)
  | .arr items => some items
  | _ => none

/-- `Value::as_i64`: succeeds on integer numbers that fit in `i64`
(`PosInt` values above `i64::MAX` and doubles give `None`). -/
def Json.as_i64 : Json → Option Int
  | .num (.int n) => if -(2 ^ 63) ≤ n ∧ n < 2 ^ 63 then some n else none
  | _ => none

/-- `Value::as_f64`: succeeds on every number (integers convert to double;
see the header comment on the unmodelled rounding for |n| ≥ 2^53). -/
def Json.as_f64 : Json → Option ℚ
  | .num (.int n) => some (n : ℚ)
  | .num (.float q) => some q
  | _ => none

-- ***********************************************************************
-- JSON POINTER (serde_json's Value::pointer)
-- ***********************************************************************

/-- Rust's `str::split(sep)` on a character list: splits at every occurrence
of `sep`, keeping empty segments (so `"".split` yields one empty segment). -/
def splitChar (sep : Char) : List Char → List (List Char)
  | [] => [[]]
  | c :: rest =>
    let r := splitChar sep rest
    if c = sep then [] :: r
    else
      match r with
      | t :: ts => (c :: t) :: ts
      | [] => [[c]]

/-- Rust's `str::replace(pat, rep)` for a fixed two-character pattern
`[a, b]` and a one-character replacement `r`: left-to-right,
non-overlapping. -/
def replace2 (a b r : Char) : List Char → List Char
  | x :: y :: rest =>
    if x = a ∧ y = b then r :: replace2 a b r rest
    else x :: replace2 a b r (y :: rest)
  | other => other

/-- serde_json's private `parse_index`: rejects a leading `+`, rejects
leading zeros (except `"0"` itself), then `str::parse::<usize>` (all
digits, non-empty, value below 2^64). -/
def parse_index : List Char → Option Nat
  | [] => none
  | c :: rest =>
    if c = '+' ∨ (c = '0' ∧ rest ≠ []) then none
    else if (c :: rest).all Char.isDigit then
      let n := (c :: rest).foldl (fun acc d => acc * 10 + (d.toNat - 48)) 0
      if n < 2 ^ 64 then some n else none
    else none

/-- First-match lookup in a JSON object's field list (`Map::get`). -/
def assocFind : List (String × Json) → List Char → Option Json
  | [], _ => none
  | (k, v) :: rest, key => if k.data = key then some v else assocFind rest key

/-- The `try_fold` loop of `Value::pointer`: walk the already-split tokens,
unescaping `~1` to `/` and then `~0` to `~` in each (in that order, as in
the source), descending through objects by key and arrays by parsed index. -/
def pointerGo : Json → List (List Char) → Option Json
  | target, [] => some target
  | target, tok :: rest =>
    let token := replace2 '~' '0' '~' (replace2 '~' '1' '/' tok)
    match target with
    | .obj fields =>
      match assocFind fields token with
      | some next => pointerGo next rest
      | none => none
    | .arr items =>
      match parse_index token with
      | some i =>
        match items.get? i with
        | some next => pointerGo next rest
        | none => none
      | none => none
    | _ => none

/-- `Value::pointer`: empty pointer resolves to the value itself; a pointer
not starting with `/` resolves to nothing; otherwise split on `/`, skip the
leading empty token and walk. -/
def Json.pointer (v : Json) (ptr : String) : Option Json :=
  match ptr.data with
  | [] => some v
  | c :: rest =>
    if c = '/' then pointerGo v ((splitChar '/' (c :: rest)).drop 1)
    else none

-- ***********************************************************************
-- CONSTRAINT (src/core.rs lines 524-1027)
-- ***********************************************************************

/-- `enum Constraint` (src/core.rs lines 527-565). -/
inductive Constraint where
  | StringEquals (s : String)
  | StringNotEquals (s : String)
  | StringContains (s : String)
  | StringContainsAll (s : List String)
  | StringContainsAny (s : List String)
  | StringDoesNotContain (s : String)
  | StringDoesNotContainAny (s : List String)
  | StringIn (ss : List String)
  | StringNotIn (ss : List String)
  | IntEquals (num : Int)
  | IntNotEquals (num : Int)
  | IntContains (num : Int)
  | IntContainsAll (nums : List Int)
  | IntContainsAny (nums : List Int)
  | IntDoesNotContain (num : Int)
  | IntDoesNotContainAny (nums : List Int)
  | IntIn (nums : List Int)
  | IntNotIn (nums : List Int)
  | IntInRange (start stop : Int)
  | IntNotInRange (start stop : Int)
  | IntLessThan (num : Int)
  | IntLessThanInclusive (num : Int)
  | IntGreaterThan (num : Int)
  | IntGreaterThanInclusive (num : Int)
  | FloatEquals (num : ℚ)
  | FloatNotEquals (num : ℚ)
  | FloatContains (num : ℚ)
  | FloatDoesNotContain (num : ℚ)
  | FloatIn (nums : List ℚ)
  | FloatNotIn (nums : List ℚ)
  | FloatInRange (start stop : ℚ)
  | FloatNotInRange (start stop : ℚ)
  | FloatLessThan (num : ℚ)
  | FloatLessThanInclusive (num : ℚ)
  | FloatGreaterThan (num : ℚ)
  | FloatGreaterThanInclusive (num : ℚ)
  | BoolEquals (b : Bool)

/-- `Constraint::check_value` (src/core.rs lines 567-1027).  Each arm is the
direct translation of the corresponding `match` arm: try the accessor the
source uses; on failure the arm's `else` branch returns `NotMet`.  The
collection operators project the array through the element-type accessor
with `filter_map`, dropping elements of other types, exactly as the source's
`x.into_iter().filter_map(|y| y.as_*()).collect()`. -/
def Constraint.check_value (c : Constraint) (v : Json) : Status :=
  match c with
  | .StringEquals s =>
    match v.as_str with
    | some w => if w = s then .Met else .NotMet
    | none => .NotMet
  | .StringNotEquals s =>
    match v.as_str with
    | some w => if w ≠ s then .Met else .NotMet
    | none => .NotMet
  | .StringContains s =>
    match v.as_array with
    | some items =>
      if s ∈ items.filterMap Json.as_str then .Met else .NotMet
    | none => .NotMet
  | .StringContainsAll s =>
    match v.as_array with
    | some items =>
      if s.all (fun y => y ∈ items.filterMap Json.as_str) then .Met else .NotMet
    | none => .NotMet
  | .StringContainsAny s =>
    match v.as_array with
    | some items =>
      if s.any (fun y => y ∈ items.filterMap Json.as_str) then .Met else .NotMet
    | none => .NotMet
  | .StringDoesNotContain s =>
    match v.as_array with
    | some items =>
      if s ∉ items.filterMap Json.as_str then .Met else .NotMet
    | none => .NotMet
  | .StringDoesNotContainAny s =>
    match v.as_array with
    | some items =>
      if s.all (fun y => y ∉ items.filterMap Json.as_str) then .Met else .NotMet
    | none => .NotMet
  | .StringIn ss =>
    match v.as_str with
    | some w => if ss.any (fun s => s = w) then .Met else .NotMet
    | none => .NotMet
  | .StringNotIn ss =>
    match v.as_str with
    | some w => if ss.all (fun s => s ≠ w) then .Met else .NotMet
    | none => .NotMet
  | .IntEquals num =>
    match v.as_i64 with
    | some w => if w = num then .Met else .NotMet
    | none => .NotMet
  | .IntNotEquals num =>
    match v.as_i64 with
    | some w => if w ≠ num then .Met else .NotMet
    | none => .NotMet
  | .IntContains num =>
    match v.as_array with
    | some items =>
      if num ∈ items.filterMap Json.as_i64 then .Met else .NotMet
    | none => .NotMet
  | .IntContainsAll nums =>
    match v.as_array with
    | some items =>
      if nums.all (fun num => num ∈ items.filterMap Json.as_i64) then .Met else .NotMet
    | none => .NotMet
  | .IntContainsAny nums =>
    match v.as_array with
    | some items =>
      if nums.any (fun num => num ∈ items.filterMap Json.as_i64) then .Met else .NotMet
    | none => .NotMet
  | .IntDoesNotContain num =>
    match v.as_array with
    | some items =>
      if num ∉ items.filterMap Json.as_i64 then .Met else .NotMet
    | none => .NotMet
  | .IntDoesNotContainAny nums =>
    match v.as_array with
    | some items =>
      if nums.all (fun num => num ∉ items.filterMap Json.as_i64) then .Met else .NotMet
    | none => .NotMet
  | .IntIn nums =>
    match v.as_i64 with
    | some w => if nums.any (fun num => num = w) then .Met else .NotMet
    | none => .NotMet
  | .IntNotIn nums =>
    match v.as_i64 with
    | some w => if nums.all (fun num => num ≠ w) then .Met else .NotMet
    | none => .NotMet
  | .IntInRange start stop =>
    match v.as_i64 with
    | some w => if start ≤ w ∧ w ≤ stop then .Met else .NotMet
    | none => .NotMet
  | .IntNotInRange start stop =>
    match v.as_i64 with
    | some w => if start ≤ w ∧ w ≤ stop then .NotMet else .Met
    | none => .NotMet
  | .IntLessThan num =>
    match v.as_i64 with
    | some w => if w < num then .Met else .NotMet
    | none => .NotMet
  | .IntLessThanInclusive num =>
    match v.as_i64 with
    | some w => if w ≤ num then .Met else .NotMet
    | none => .NotMet
  | .IntGreaterThan num =>
    match v.as_i64 with
    | some w => if w > num then .Met else .NotMet
    | none => .NotMet
  | .IntGreaterThanInclusive num =>
    match v.as_i64 with
    | some w => if w ≥ num then .Met else .NotMet
    | none => .NotMet
  | .FloatEquals num =>
    match v.as_f64 with
    | some w => if w = num then .Met else .NotMet
    | none => .NotMet
  | .FloatNotEquals num =>
    match v.as_f64 with
    | some w => if w ≠ num then .Met else .NotMet
    | none => .NotMet
  | .FloatContains num =>
    match v.as_array with
    | some items =>
      if num ∈ items.filterMap Json.as_f64 then .Met else .NotMet
    | none => .NotMet
  | .FloatDoesNotContain num =>
    match v.as_array with
    | some items =>
      if num ∉ items.filterMap Json.as_f64 then .Met else .NotMet
    | none => .NotMet
  | .FloatIn nums =>
    match v.as_f64 with
    | some w => if nums.any (fun num => num = w) then .Met else .NotMet
    | none => .NotMet
  | .FloatNotIn nums =>
    match v.as_f64 with
    | some w => if nums.all (fun num => num ≠ w) then .Met else .NotMet
    | none => .NotMet
  | .FloatInRange start stop =>
    match v.as_f64 with
    | some w => if start ≤ w ∧ w ≤ stop then .Met else .NotMet
    | none => .NotMet
  | .FloatNotInRange start stop =>
    match v.as_f64 with
    | some w => if start ≤ w ∧ w ≤ stop then .NotMet else .Met
    | none => .NotMet
  | .FloatLessThan num =>
    match v.as_f64 with
    | some w => if w < num then .Met else .NotMet
    | none => .NotMet
  | .FloatLessThanInclusive num =>
    match v.as_f64 with
    | some w => if w ≤ num then .Met else .NotMet
    | none => .NotMet
  | .FloatGreaterThan num =>
    match v.as_f64 with
    | some w => if w > num then .Met else .NotMet
    | none => .NotMet
  | .FloatGreaterThanInclusive num =>
    match v.as_f64 with
    | some w => if w ≥ num then .Met else .NotMet
    | none => .NotMet
  | .BoolEquals b =>
    match v.as_bool with
    | some w => if w = b then .Met else .NotMet
    | none => .NotMet

/-- Whether the coercion that `Constraint::check_value` performs on the fact
value fails for this operator, i.e. whether the accessor the corresponding
source arm calls (`as_str` / `as_i64` / `as_f64` / `as_bool` / `as_array`)
returns `None` — "the value cannot be coerced to the operator's expected
shape". -/
def Constraint.coercion_fails (c : Constraint) (v : Json) : Bool :=
  match c with
  | .StringEquals _ | .StringNotEquals _ | .StringIn _ | .StringNotIn _ =>
    v.as_str.isNone
  | .StringContains _ | .StringContainsAll _ | .StringContainsAny _
  | .StringDoesNotContain _ | .StringDoesNotContainAny _ =>
    v.as_array.isNone
  | .IntContains _ | .IntContainsAll _ | .IntContainsAny _
  | .IntDoesNotContain _ | .IntDoesNotContainAny _ =>
    v.as_array.isNone
  | .IntEquals _ | .IntNotEquals _ | .IntIn _ | .IntNotIn _
  | .IntInRange _ _ | .IntNotInRange _ _ | .IntLessThan _
  | .IntLessThanInclusive _ | .IntGreaterThan _ | .IntGreaterThanInclusive _ =>
    v.as_i64.isNone
  | .FloatContains _ | .FloatDoesNotContain _ =>
    v.as_array.isNone
  | .FloatEquals _ | .FloatNotEquals _ | .FloatIn _ | .FloatNotIn _
  | .FloatInRange _ _ | .FloatNotInRange _ _ | .FloatLessThan _
  | .FloatLessThanInclusive _ | .FloatGreaterThan _
  | .FloatGreaterThanInclusive _ =>
    v.as_f64.isNone
  | .BoolEquals _ =>
    v.as_bool.isNone

-- ***********************************************************************
-- CONDITION (src/core.rs lines 94-116, 388-519)
-- ***********************************************************************

/-- `enum Condition` (src/core.rs lines 96-116); the `eval`-feature-gated
`Eval` variant is omitted (feature disabled). -/
inductive Condition where
  | And (and : List Condition)
  | Or (or : List Condition)
  | AtLeast (should_minimum_meet : Nat) (conditions : List Condition)
  | Cond (field : String) (constraint : Constraint)

/-- `struct ConditionResult` (src/core.rs lines 1034-1041). -/
structure ConditionResult where
  name : String
  status : Status
  children : List ConditionResult

/-- Whether a Rust string starts with `'/'` (`str::starts_with("/")`). -/
def strStartsWithSlash (s : String) : Bool :=
  match s.data with
  | c :: _ => c = '/'
  | [] => false

mutual

/-- `Condition::check_value` (src/core.rs lines 391-518): depth-first,
eager recursion.  `And`/`Or` collect every child result while folding the
status with the `Status` algebra (the source's `.inspect(...)` accumulator
applied along the iteration is the in-order fold over the child statuses);
`AtLeast` counts children whose status is exactly `Met`; a leaf prefixes a
`/` to the field when absent, resolves the pointer, and delegates to the
constraint — an unresolved pointer gives `Unknown`. -/
def Condition.check_value (c : Condition) (info : Json) : ConditionResult :=
  match c with
  | .And and =>
    let children := checkList and info
    { name := "And"
      status := children.foldl (fun s r => s.bitand r.status) .Met
      children }
  | .Or or =>
    let children := checkList or info
    { name := "Or"
      status := children.foldl (fun s r => s.bitor r.status) .NotMet
      children }
  | .AtLeast should_minimum_meet conditions =>
    let children := checkList conditions info
    let met_count := children.countP (fun r => r.status == Status.Met)
    { name := "At least meet " ++ toString should_minimum_meet
        ++ " of " ++ toString conditions.length
      status := if met_count ≥ should_minimum_meet then .Met else .NotMet
      children }
  | .Cond field constraint =>
    let path := if strStartsWithSlash field then field else "/" ++ field
    let status :=
      match info.pointer path with
      | some s => constraint.check_value s
      | none => Status.Unknown
    { name := field, status, children := [] }

/-- The per-child mapping inside the `And`/`Or`/`AtLeast` arms
(`.iter().map(|c| c.check_value(info)).collect()`). -/
def checkList (cs : List Condition) (info : Json) : List ConditionResult :=
  match cs with
  | [] => []
  | c :: rest => c.check_value info :: checkList rest info

end

-- ***********************************************************************
-- EVENTS AND RULES (src/core.rs lines 118-223)
-- ***********************************************************************

/-- `struct EventParams` (src/core.rs lines 119-124). -/
structure EventParams where
  ty : String
  title : String
  message : String

/-- `enum Event` (src/core.rs lines 129-145); the `email`-feature-gated
`EmailNotification` variant is omitted (feature disabled). -/
inductive Event where
  | Message (params : EventParams)
  | PostToCallbackUrl (callback_url : String) (params : EventParams)
      (app_data : List (String × Json))

/-- `struct CoalescenceEvent` (src/core.rs lines 149-154). -/
structure CoalescenceEvent where
  coalescence : Option Nat
  coalescence_group : Option String
  event : Event

/-- `struct Rule` (src/core.rs lines 157-160). -/
structure Rule where
  conditions : Condition
  events : List CoalescenceEvent

/-- `struct RuleResult` (src/core.rs lines 1043-1047). -/
structure RuleResult where
  condition_result : ConditionResult
  events : List CoalescenceEvent

/-- The `params` borrow in `Rule::check_value` (src/core.rs lines 182-187):
each event variant's embedded `EventParams`. -/
def Event.getParams : Event → EventParams
  | .Message params => params
  | .PostToCallbackUrl _ params _ => params

/-- `Rule::check_value` (src/core.rs lines 163-222): evaluate the condition
tree, then for every attached event render the message, the callback URL
(for `PostToCallbackUrl`) and the coalescence-group key (when present)
against the facts through the external templating capability `render`; a
failed render (`none`) leaves the original text in place. -/
def Rule.check_value (render : String → Json → Option String)
    (r : Rule) (info : Json) : RuleResult :=
  let condition_result := r.conditions.check_value info
  let events := r.events.map (fun ce =>
    let event :=
      match ce.event with
      | Event.Message params =>
        let params :=
          match render params.message info with
          | some message => { params with message }
          | none => params
        Event.Message params
      | Event.PostToCallbackUrl callback_url params app_data =>
        let params :=
          match render params.message info with
          | some message => { params with message }
          | none => params
        let callback_url :=
          match render callback_url info with
          | some new_url => new_url
          | none => callback_url
        Event.PostToCallbackUrl callback_url params app_data
    let coalescence_group :=
      match ce.coalescence_group with
      | some g =>
        some (match render g info with
          | some g2 => g2
          | none => g)
      | none => none
    { ce with event, coalescence_group })
  { condition_result, events }

-- ***********************************************************************
-- ENGINE AND COALESCENCE CACHE (src/core.rs lines 225-385)
-- ***********************************************************************

/-- The `coalescences: HashMap<String, (Instant, u64)>` field: group key to
(insertion time in seconds, TTL in seconds).  A `HashMap` is unordered and
key-unique; it is modelled as an association list whose order no operation
observes. -/
def Cache := List (String × Nat × Nat)

/-- `HashMap::contains_key`. -/
def Cache.containsKey : Cache → String → Bool
  | [], _ => false
  | (k, _) :: rest, key => if k = key then true else Cache.containsKey rest key

/-- `HashMap::insert` (replaces an existing entry for the key). -/
def Cache.insert : Cache → String → Nat × Nat → Cache
  | [], key, v => [(key, v)]
  | (k, w) :: rest, key, v =>
    if k = key then (key, v) :: rest else (k, w) :: Cache.insert rest key v

/-- The `rule_result.events.retain(...)` closure of `Engine::run`
(src/core.rs lines 299-315), applied in order with the mutable cache
threaded through: an event carrying both a group key and a TTL is dropped
when the group is already cached, and otherwise inserts a fresh
`(now, ttl)` entry and survives; any other event survives untouched. -/
def retainEvents (now : Nat) : Cache → List CoalescenceEvent →
    List CoalescenceEvent × Cache
  | cache, [] => ([], cache)
  | cache, ev :: rest =>
    match ev.coalescence_group, ev.coalescence with
    | some g, some ttl =>
      if cache.containsKey g then
        retainEvents now cache rest
      else
        let p := retainEvents now (cache.insert g (now, ttl)) rest
        (ev :: p.1, p.2)
    | _, _ =>
      let p := retainEvents now cache rest
      (ev :: p.1, p.2)

/-- The `for rule_result in rule_results.iter_mut()` loop of `Engine::run`
(src/core.rs lines 298-316): apply `retainEvents` to each retained rule's
events in order, threading the cache. -/
def coalesceResults (now : Nat) : Cache → List RuleResult →
    List RuleResult × Cache
  | cache, [] => ([], cache)
  | cache, rr :: rest =>
    let p := retainEvents now cache rr.events
    let q := coalesceResults now p.2 rest
    ({ rr with events := p.1 } :: q.1, q.2)

/-- `struct Engine` (src/core.rs lines 226-234): the rule registry in
registration order plus the coalescence cache (the HTTP client is external
state with no bearing on `run`'s return value). -/
structure Engine where
  rules : List Rule
  coalescences : Cache

/-- `Engine::run` (src/core.rs lines 274-385).  `factsSer` is the outcome
of `serde_json::to_value(facts)` (`none` models `Err`, propagated by `?`);
`render` is the external templating capability; `dispatch` is the outcome
oracle for the external HTTP sink, whose results the source discards
(`let _ = join_all(requests).await;`).  Steps, in source order: evaluate
every rule, keep those whose root status is `Met`, evict expired cache
entries, run the coalescence filter over the retained rules' events, fire
the callback requests (outcomes discarded), return the results. -/
def Engine.run (e : Engine) (now : Nat)
    (render : String → Json → Option String) (dispatch : Event → Bool)
    (factsSer : Option Json) : Option (List RuleResult × Engine) :=
  match factsSer with
  | none => none
  | some facts =>
    let rule_results :=
      (e.rules.map (fun rule => Rule.check_value render rule facts)).filter
        (fun rr => rr.condition_result.status == Status.Met)
    let coalescences :=
      e.coalescences.filter (fun kv => now - kv.2.1 < kv.2.2)
    let (rule_results, coalescences) :=
      coalesceResults now coalescences rule_results
    let _ := rule_results.map (fun rr =>
      rr.events.filterMap (fun ce =>
        match ce.event with
        | Event.PostToCallbackUrl u p a =>
          some (dispatch (Event.PostToCallbackUrl u p a))
        | Event.Message _ => none))
    some (rule_results, { e with coalescences })

-- ***********************************************************************
-- SHAPE MIRRORING (property predicate for the result tree)
-- ***********************************************************************

/-- The immediate children of a condition node. -/
def Condition.sub : Condition → List Condition
  | .And and => and
  | .Or or => or
  | .AtLeast _ conditions => conditions
  | .Cond _ _ => []

mutual

/-- A result tree mirrors a condition tree when they have the same number
of children at every node, recursively. -/
def mirrors : Condition → ConditionResult → Bool
  | c, ⟨_, _, children⟩ => mirrorsList c.sub children

def mirrorsList : List Condition → List ConditionResult → Bool
  | [], [] => true
  | c :: cs, r :: rs => mirrors c r && mirrorsList cs rs
  | _, _ => false

end

-- ***********************************************************************
-- AUXILIARY DEFINITION FOR THE FLOAT-EQUALITY ANALYSIS
-- ***********************************************************************

/-- The exact value of `f64::EPSILON` (2^-52).  This constant appears only
in the epsilon-tolerance float comparison of `src/constraint.rs`, a file
that is *not* part of the compiled crate (see the header comment); the
compiled `Constraint::check_value` in `src/core.rs` compares doubles
exactly. -/
def f64Epsilon : ℚ := 1 / 2 ^ 52


-- ***********************************************************************
-- CONCRETE SANITY CHECKS (kernel-evaluated instances of the embedding)
-- ***********************************************************************

example : Json.pointer (.obj [("age", .num (.int 24))]) "/age"
    = some (.num (.int 24)) := rfl
example : Json.pointer (.obj [("age", .num (.int 24))]) "/name" = none := rfl
example : Json.pointer (.obj [("a", .arr [.null, .bool true])]) "/a/1"
    = some (.bool true) := rfl
example : Json.pointer (.obj [("a", .arr [.null, .bool true])]) "/a/01"
    = none := rfl
example : Json.pointer (.obj [("a~b", .str "x")]) "/a~0b" = some (.str "x") := rfl
example : (Constraint.StringEquals "bar").check_value (.str "bar") = .Met := rfl
example : (Constraint.IntEquals 2).check_value (.str "bar") = .NotMet := rfl
example : (Constraint.IntInRange 1 3).check_value (.num (.int 1)) = .Met := rfl
example : (Constraint.BoolEquals true).check_value (.str "tRuE") = .NotMet := rfl
example : (Constraint.StringContains "a").check_value
    (.arr [.str "b", .str "a"]) = .Met := rfl
example :
    ((Condition.And [.Cond "foo" (.IntEquals 1), .Cond "bar" (.StringEquals "bar")]).check_value
      (.obj [("foo", .num (.int 1)), ("bar", .str "bar")])).status = .Met := rfl
example :
    ((Condition.And [.Cond "quux" (.IntEquals 2), .Cond "bar" (.StringEquals "bar")]).check_value
      (.obj [("foo", .num (.int 1)), ("bar", .str "bar")])).status = .Unknown := rfl
example :
    ((Condition.Or [.Cond "quux" (.IntEquals 2), .Cond "bar" (.StringEquals "baz")]).check_value
      (.obj [("bar", .str "bar")])).status = .Unknown := rfl
example :
    ((Condition.AtLeast 2 [.Cond "foo" (.IntEquals 1), .Cond "quux" (.StringEquals "bar"),
      .Cond "baz" (.BoolEquals false)]).check_value
      (.obj [("foo", .num (.int 1)), ("baz", .bool true)])).status = .NotMet := rfl

-- ***********************************************************************
-- HELPER LEMMAS
-- ***********************************************************************

theorem check_value_ne_unknown (c : Constraint) (v : Json) :
    c.check_value v ≠ Status.Unknown := by
  cases c <;> simp only [Constraint.check_value] <;>
    (repeat' split) <;> simp

theorem coercion_fails_notMet (c : Constraint) (v : Json) :
    c.coercion_fails v = true → c.check_value v = Status.NotMet := by
  cases c <;> intro h <;>
    simp only [Constraint.coercion_fails, Option.isNone_iff_eq_none] at h <;>
    simp [Constraint.check_value, h]

theorem checkList_length (cs : List Condition) (info : Json) :
    (checkList cs info).length = cs.length := by
  induction cs with
  | nil => rfl
  | cons c rest ih => simp [checkList, ih]

theorem checkList_eq_map (cs : List Condition) (info : Json) :
    checkList cs info = cs.map (fun c => c.check_value info) := by
  induction cs with
  | nil => rfl
  | cons c rest ih => simp [checkList, ih]

theorem startsWithSlash_append (s : String) :
    strStartsWithSlash ("/" ++ s) = true := by
  simp [strStartsWithSlash, String.data_append]

-- ***********************************************************************
-- CLAIM THEOREMS
-- ***********************************************************************

/-- C1: the three-valued Status algebra laws: AND and OR are commutative
and associative, NOT is an involution, and the concrete cases
`Met AND Met = Met`, `NotMet AND Unknown = NotMet`,
`Met AND Unknown = Unknown`, `NotMet OR Unknown = Unknown`,
`Met OR NotMet = Met` all hold. -/
theorem status_algebra_laws (a b c : Status) :
    a.bitand b = b.bitand a ∧
    a.bitor b = b.bitor a ∧
    a.not.not = a ∧
    (a.bitand b).bitand c = a.bitand (b.bitand c) ∧
    (a.bitor b).bitor c = a.bitor (b.bitor c) ∧
    Status.Met.bitand .Met = .Met ∧
    Status.NotMet.bitand .Unknown = .NotMet ∧
    Status.Met.bitand .Unknown = .Unknown ∧
    Status.NotMet.bitor .Unknown = .Unknown ∧
    Status.Met.bitor .NotMet = .Met := by
  cases a <;> cases b <;> cases c <;>
    exact ⟨rfl, rfl, rfl, rfl, rfl, rfl, rfl, rfl, rfl, rfl⟩

/-- C4: `Constraint::check_value` is total into {Met, NotMet}: it never
returns `Unknown` for any operator and any fact value, and whenever the
value cannot be coerced to the operator's expected shape (the accessor the
operator's arm calls fails), the result is `NotMet`. -/
theorem constraint_check_total (c : Constraint) (v : Json) :
    c.check_value v ≠ Status.Unknown ∧
    (c.coercion_fails v = true → c.check_value v = Status.NotMet) :=
  ⟨check_value_ne_unknown c v, coercion_fails_notMet c v⟩

theorem constraint_check_total_witness :
    (Constraint.IntEquals 3).check_value (Json.str "x") ≠ Status.Unknown ∧
    (Constraint.IntEquals 3).check_value (Json.str "x") = Status.NotMet :=
  ⟨(constraint_check_total (Constraint.IntEquals 3) (Json.str "x")).1,
    (constraint_check_total (Constraint.IntEquals 3) (Json.str "x")).2 (by decide)⟩

/-- C3: a leaf condition normalizes its field to a slash-delimited JSON
pointer by prefixing a leading `/` when absent (so the status of the leaf
for `field` equals the status for `"/" ++ field`), and whenever the
normalized pointer resolves to nothing in the fact tree the leaf status is
`Unknown`, independent of the constraint operator. -/
theorem leaf_missing_field_unknown (field : String) (constraint : Constraint)
    (info : Json) :
    (strStartsWithSlash field = false →
      ((Condition.Cond field constraint).check_value info).status
        = ((Condition.Cond ("/" ++ field) constraint).check_value info).status) ∧
    (info.pointer (if strStartsWithSlash field then field else "/" ++ field)
        = none →
      ((Condition.Cond field constraint).check_value info).status
        = Status.Unknown) := by
  constructor
  · intro h
    simp [Condition.check_value, h, startsWithSlash_append]
  · intro h
    simp [Condition.check_value, h]

theorem leaf_missing_field_unknown_witness :
    ((Condition.Cond "age" (Constraint.IntEquals 1)).check_value
      (Json.obj [("name", Json.str "A")])).status = Status.Unknown :=
  (leaf_missing_field_unknown "age" (Constraint.IntEquals 1)
    (Json.obj [("name", Json.str "A")])).2 rfl

/-- C5: an `AtLeast` node is `Met` exactly when at least
`should_minimum_meet` of its evaluated children have status exactly `Met`,
and `NotMet` otherwise; it is never `Unknown`; `AtLeast 0 []` is vacuously
`Met`; and when the minimum exceeds the number of children the node is
`NotMet` regardless of child statuses. -/
theorem atLeast_semantics (min : Nat) (conds : List Condition) (info : Json) :
    (((Condition.AtLeast min conds).check_value info).status = Status.Met ↔
      min ≤ ((Condition.AtLeast min conds).check_value info).children.countP
        (fun r => r.status == Status.Met)) ∧
    ((Condition.AtLeast min conds).check_value info).status ≠ Status.Unknown ∧
    ((Condition.AtLeast 0 []).check_value info).status = Status.Met ∧
    (conds.length < min →
      ((Condition.AtLeast min conds).check_value info).status
        = Status.NotMet) := by
  refine ⟨?_, ?_, ?_, ?_⟩
  · simp only [Condition.check_value]
    split <;> rename_i h <;> simp_all
  · simp only [Condition.check_value]
    split <;> simp
  · rfl
  · intro hlt
    simp only [Condition.check_value]
    rw [if_neg]
    intro hge
    have hle : (checkList conds info).countP (fun r => r.status == Status.Met)
        ≤ conds.length := by
      calc (checkList conds info).countP (fun r => r.status == Status.Met)
          ≤ (checkList conds info).length := List.countP_le_length _
        _ = conds.length := checkList_length conds info
    omega

theorem atLeast_semantics_witness :
    ((Condition.AtLeast 2 [Condition.Cond "a" (Constraint.BoolEquals true)]).check_value
      Json.null).status = Status.NotMet :=
  (atLeast_semantics 2 [Condition.Cond "a" (Constraint.BoolEquals true)]
    Json.null).2.2.2 (by decide)

mutual

theorem mirrors_check (c : Condition) (info : Json) :
    mirrors c (c.check_value info) = true := by
  cases c with
  | And l =>
    simpa [Condition.check_value, mirrors, Condition.sub] using
      mirrorsList_check l info
  | Or l =>
    simpa [Condition.check_value, mirrors, Condition.sub] using
      mirrorsList_check l info
  | AtLeast m l =>
    simpa [Condition.check_value, mirrors, Condition.sub] using
      mirrorsList_check l info
  | Cond f k =>
    simp [Condition.check_value, mirrors, Condition.sub, mirrorsList]

theorem mirrorsList_check (l : List Condition) (info : Json) :
    mirrorsList l (checkList l info) = true := by
  cases l with
  | nil => rfl
  | cons c cs =>
    simp [checkList, mirrorsList, mirrors_check c info,
      mirrorsList_check cs info]

end

/-- C9: condition evaluation is eager, with no short-circuiting: the result
tree mirrors the condition tree's shape at every node (so every child of
every `And`/`Or`/`AtLeast` was evaluated), the children of an
`And`/`Or`/`AtLeast` result are exactly the evaluations of all the node's
children in order, and the `And` (resp. `Or`) status is the fold of the
Status AND starting from `Met` (resp. OR starting from `NotMet`) over all
child statuses. -/
theorem eager_full_evaluation (info : Json) :
    (∀ c : Condition, mirrors c (c.check_value info) = true) ∧
    (∀ l : List Condition,
      ((Condition.And l).check_value info).children
          = l.map (fun c => c.check_value info) ∧
      ((Condition.Or l).check_value info).children
          = l.map (fun c => c.check_value info) ∧
      (∀ m : Nat, ((Condition.AtLeast m l).check_value info).children
          = l.map (fun c => c.check_value info)) ∧
      ((Condition.And l).check_value info).status
          = (((Condition.And l).check_value info).children.map
              ConditionResult.status).foldl Status.bitand Status.Met ∧
      ((Condition.Or l).check_value info).status
          = (((Condition.Or l).check_value info).children.map
              ConditionResult.status).foldl Status.bitor Status.NotMet) := by
  refine ⟨fun c => mirrors_check c info, fun l => ⟨?_, ?_, fun m => ?_, ?_, ?_⟩⟩
  · simp [Condition.check_value, checkList_eq_map]
  · simp [Condition.check_value, checkList_eq_map]
  · simp [Condition.check_value, checkList_eq_map]
  · simp only [Condition.check_value, List.foldl_map]
  · simp only [Condition.check_value, List.foldl_map]

/-- C7 counterexample: in the compiled `Constraint::check_value`
(src/core.rs), `FloatEquals` compares doubles exactly, not with an epsilon
tolerance: the value 2^-53 lies strictly within `f64::EPSILON` of 0 (so
the claim predicts `Met`) yet `FloatEquals 0` yields `NotMet` on it, and
at the exact epsilon boundary (where the claim predicts both operators
yield `NotMet`) `FloatNotEquals 0` yields `Met`. -/
theorem float_equals_epsilon_cex :
    |(1 / 2 ^ 53 : ℚ) - 0| < f64Epsilon ∧
    (Constraint.FloatEquals 0).check_value
      (Json.num (JsonNum.float (1 / 2 ^ 53))) = Status.NotMet ∧
    (Constraint.FloatNotEquals 0).check_value
      (Json.num (JsonNum.float f64Epsilon)) = Status.Met := by
  refine ⟨?_, ?_, ?_⟩
  · rw [f64Epsilon, sub_zero, abs_of_nonneg (by positivity)]
    norm_num
  · norm_num [Constraint.check_value, Json.as_f64]
  · norm_num [Constraint.check_value, Json.as_f64, f64Epsilon]

/-- C7 amended: float equality in the compiled module is exact:
`FloatEquals c` yields `Met` exactly when the value equals `c`,
`FloatNotEquals c` yields `Met` exactly when it differs from `c`, and for
every double value exactly one of the two is `Met` — no value is
classified as neither equal nor not-equal. -/
theorem float_equality_exact (c v : ℚ) :
    ((Constraint.FloatEquals c).check_value (Json.num (JsonNum.float v))
        = Status.Met ↔ v = c) ∧
    ((Constraint.FloatNotEquals c).check_value (Json.num (JsonNum.float v))
        = Status.Met ↔ v ≠ c) ∧
    (((Constraint.FloatEquals c).check_value (Json.num (JsonNum.float v))
        = Status.Met) ↔
      ¬ ((Constraint.FloatNotEquals c).check_value (Json.num (JsonNum.float v))
        = Status.Met)) := by
  by_cases h : v = c <;> simp [Constraint.check_value, Json.as_f64, h]

/-- C10: an event that lacks a coalescence group key or lacks a
coalescence TTL is never suppressed by the coalescence filter and never
inserts or updates a cache entry: on any list of such events the filter
returns the events unchanged and leaves the cache untouched. -/
theorem no_coalescence_without_both (now : Nat) (cache : Cache)
    (evs : List CoalescenceEvent)
    (h : ∀ ev ∈ evs, ev.coalescence_group = none ∨ ev.coalescence = none) :
    retainEvents now cache evs = (evs, cache) := by
  induction evs generalizing cache with
  | nil => rfl
  | cons ev rest ih =>
    have hev := h ev (List.mem_cons_self ev rest)
    have hrest : ∀ x ∈ rest, x.coalescence_group = none ∨ x.coalescence = none :=
      fun x hx => h x (List.mem_cons_of_mem ev hx)
    rcases hev with hg | ht
    · simp [retainEvents, hg, ih cache hrest]
    · cases hgg : ev.coalescence_group with
      | none => simp [retainEvents, hgg, ih cache hrest]
      | some g => simp [retainEvents, hgg, ht, ih cache hrest]

theorem no_coalescence_without_both_witness :
    retainEvents 0 []
      [{ coalescence := some 5, coalescence_group := none,
         event := Event.Message { ty := "t", title := "t", message := "m" } }]
    = ([{ coalescence := some 5, coalescence_group := none,
          event := Event.Message { ty := "t", title := "t", message := "m" } }],
        []) :=
  no_coalescence_without_both 0 []
    [{ coalescence := some 5, coalescence_group := none,
       event := Event.Message { ty := "t", title := "t", message := "m" } }]
    (by
      intro x hx
      rw [List.mem_singleton] at hx
      subst hx
      exact Or.inl rfl)

theorem retainEvents_sublist (now : Nat) (cache : Cache)
    (evs : List CoalescenceEvent) :
    List.Sublist (retainEvents now cache evs).1 evs := by
  induction evs generalizing cache with
  | nil => simp [retainEvents]
  | cons ev rest ih =>
    cases hg : ev.coalescence_group with
    | none =>
      simpa [retainEvents, hg] using List.Sublist.cons₂ ev (ih cache)
    | some g =>
      cases ht : ev.coalescence with
      | none =>
        simpa [retainEvents, hg, ht] using List.Sublist.cons₂ ev (ih cache)
      | some ttl =>
        by_cases hc : cache.containsKey g = true
        · simpa [retainEvents, hg, ht, hc] using
            List.Sublist.cons ev (ih cache)
        · simpa [retainEvents, hg, ht, hc] using
            List.Sublist.cons₂ ev (ih (cache.insert g (now, ttl)))

/-- C8: on a rule match every templated string field of every attached
event — the message body, the callback target for `PostToCallbackUrl`
events, and the coalescence-group key when present — is rendered against
the fact tree exactly once (the output field is `render` applied to the
original literal, falling back to that literal verbatim when rendering
fails), the rule is never aborted (the event list keeps its length and the
condition result is the plain evaluation of the condition tree), and the
coalescence filter only selects among the already-rendered events. -/
theorem event_rendering (render : String → Json → Option String)
    (r : Rule) (info : Json) :
    (Rule.check_value render r info).condition_result
        = r.conditions.check_value info ∧
    (Rule.check_value render r info).events.length = r.events.length ∧
    (Rule.check_value render r info).events = r.events.map (fun ce =>
      { ce with
        event :=
          match ce.event with
          | Event.Message params =>
            Event.Message { params with
              message := (render params.message info).getD params.message }
          | Event.PostToCallbackUrl callback_url params app_data =>
            Event.PostToCallbackUrl
              ((render callback_url info).getD callback_url)
              { params with
                message := (render params.message info).getD params.message }
              app_data
        coalescence_group :=
          ce.coalescence_group.map (fun grp => (render grp info).getD grp) }) ∧
    (∀ now cache,
      List.Sublist
        (retainEvents now cache (Rule.check_value render r info).events).1
        (Rule.check_value render r info).events) := by
  refine ⟨rfl, by simp [Rule.check_value], ?_,
    fun now cache => retainEvents_sublist now cache _⟩
  simp only [Rule.check_value]
  congr 1
  funext ce
  rcases ce with ⟨co, grp, ev⟩
  cases ev with
  | Message params =>
    cases grp with
    | none => cases h1 : render params.message info <;> simp [h1]
    | some g =>
      cases h1 : render params.message info <;>
        cases h2 : render g info <;> simp [h1, h2]
  | PostToCallbackUrl url params app_data =>
    cases grp with
    | none =>
      cases h1 : render params.message info <;>
        cases h2 : render url info <;> simp [h1, h2]
    | some g =>
      cases h1 : render params.message info <;>
        cases h2 : render url info <;>
          cases h3 : render g info <;> simp [h1, h2, h3]

theorem coalesceResults_map_condition (now : Nat) (cache : Cache)
    (rs : List RuleResult) :
    (coalesceResults now cache rs).1.map RuleResult.condition_result
      = rs.map RuleResult.condition_result := by
  induction rs generalizing cache with
  | nil => rfl
  | cons rr rest ih => simp [coalesceResults, ih]

theorem coalesceResults_mem_condition (now : Nat) (cache : Cache)
    (rs : List RuleResult) :
    ∀ x ∈ (coalesceResults now cache rs).1,
      ∃ y ∈ rs, x.condition_result = y.condition_result := by
  induction rs generalizing cache with
  | nil => intro x hx; simp [coalesceResults] at hx
  | cons rr rest ih =>
    intro x hx
    simp only [coalesceResults, List.mem_cons] at hx
    rcases hx with hx | hx
    · exact ⟨rr, List.mem_cons_self rr rest, by simp [hx]⟩
    · obtain ⟨y, hy, hxy⟩ := ih _ x hx
      exact ⟨y, List.mem_cons_of_mem rr hy, hxy⟩

/-- C2: `Engine::run` fails exactly when serializing the facts fails, its
return value is independent of the dispatch outcomes (dispatch failures
never surface as errors), and on success the returned list consists of
precisely the per-rule results whose root condition status is `Met`, in
registration order — rules whose root is `NotMet` or `Unknown` are absent
from the output. -/
theorem engine_run_contract (e : Engine) (now : Nat)
    (render : String → Json → Option String) (d d2 : Event → Bool)
    (factsSer : Option Json) :
    (e.run now render d factsSer = none ↔ factsSer = none) ∧
    e.run now render d factsSer = e.run now render d2 factsSer ∧
    (∀ facts out, factsSer = some facts →
      e.run now render d factsSer = some out →
      (∀ rr ∈ out.1, rr.condition_result.status = Status.Met) ∧
      out.1.map RuleResult.condition_result
        = ((e.rules.map (fun rule => Rule.check_value render rule facts)).filter
            (fun rr => rr.condition_result.status == Status.Met)).map
            RuleResult.condition_result) := by
  refine ⟨?_, ?_, ?_⟩
  · cases factsSer <;> simp [Engine.run]
  · cases factsSer <;> rfl
  · intro facts out hf hout
    subst hf
    simp only [Engine.run, Option.some.injEq] at hout
    subst hout
    constructor
    · intro rr hrr
      obtain ⟨y, hy, hxy⟩ := coalesceResults_mem_condition _ _ _ rr hrr
      have := List.of_mem_filter hy
      rw [hxy]
      exact of_decide_eq_true this
    · exact coalesceResults_map_condition _ _ _

theorem engine_run_contract_witness :
    ((none : Option (List RuleResult × Engine)) = none ↔
      (some Json.null : Option Json) = none) ∨
    ((∀ rr ∈ ([] : List RuleResult), rr.condition_result.status = Status.Met) ∧
      ([] : List RuleResult).map RuleResult.condition_result
        = ((([] : List Rule).map
            (fun rule => Rule.check_value (fun _ _ => none) rule Json.null)).filter
            (fun rr => rr.condition_result.status == Status.Met)).map
            RuleResult.condition_result) :=
  Or.inr
    ((engine_run_contract { rules := [], coalescences := [] } 0
      (fun _ _ => none) (fun _ => true) (fun _ => false)
      (some Json.null)).2.2 Json.null
      ([], { rules := [], coalescences := [] }) rfl rfl)

/-- C6: coalescence window semantics.  With a single always-`Met` rule
carrying one event with coalescence group `g` and TTL `ttl`: the first
run (at time `t0`) fires the event and inserts a cache entry
`(g, t0, ttl)`; a second run within the window (`t1 - t0 < ttl`) drops
the event — it is absent from the returned rule result's event list and
the cache is unchanged; a third run once the TTL has elapsed
(`ttl ≤ t2 - t0`) evicts the entry at the start of the suppression step,
fires the event again and re-inserts a fresh entry with the current
timestamp `t2` and the event's own TTL. -/
theorem coalescence_window (g : String) (ttl t0 t1 t2 : Nat) (facts : Json)
    (dispatch : Event → Bool)
    (_h01 : t0 ≤ t1) (h1 : t1 - t0 < ttl) (h2 : ttl ≤ t2 - t0) :
    let ev : CoalescenceEvent :=
      { coalescence := some ttl, coalescence_group := some g,
        event := Event.Message { ty := "ty", title := "title", message := "msg" } }
    let rule : Rule := { conditions := Condition.And [], events := [ev] }
    let cr : ConditionResult :=
      { name := "And", status := Status.Met, children := [] }
    Engine.run { rules := [rule], coalescences := [] } t0
        (fun _ _ => none) dispatch (some facts)
      = some ([{ condition_result := cr, events := [ev] }],
          { rules := [rule], coalescences := [(g, t0, ttl)] }) ∧
    Engine.run { rules := [rule], coalescences := [(g, t0, ttl)] } t1
        (fun _ _ => none) dispatch (some facts)
      = some ([{ condition_result := cr, events := [] }],
          { rules := [rule], coalescences := [(g, t0, ttl)] }) ∧
    Engine.run { rules := [rule], coalescences := [(g, t0, ttl)] } t2
        (fun _ _ => none) dispatch (some facts)
      = some ([{ condition_result := cr, events := [ev] }],
          { rules := [rule], coalescences := [(g, t2, ttl)] }) := by
  refine ⟨?_, ?_, ?_⟩
  · simp [Engine.run, Rule.check_value, Condition.check_value, checkList,
      coalesceResults, retainEvents, Cache.containsKey, Cache.insert]
  · simp [Engine.run, Rule.check_value, Condition.check_value, checkList,
      coalesceResults, retainEvents, Cache.containsKey, Cache.insert, h1]
  · have h2' : ¬ (t2 - t0 < ttl) := by omega
    simp [Engine.run, Rule.check_value, Condition.check_value, checkList,
      coalesceResults, retainEvents, Cache.containsKey, Cache.insert, h2']

theorem coalescence_window_witness :
    (0 : Nat) ≤ 3 ∧ 3 - 0 < 5 ∧ 5 ≤ 7 - 0 ∧
    (let ev : CoalescenceEvent :=
      { coalescence := some 5, coalescence_group := some "g",
        event := Event.Message { ty := "ty", title := "title", message := "msg" } }
    let rule : Rule := { conditions := Condition.And [], events := [ev] }
    let cr : ConditionResult :=
      { name := "And", status := Status.Met, children := [] }
    Engine.run { rules := [rule], coalescences := [] } 0
        (fun _ _ => none) (fun _ => true) (some Json.null)
      = some ([{ condition_result := cr, events := [ev] }],
          { rules := [rule], coalescences := [("g", 0, 5)] }) ∧
    Engine.run { rules := [rule], coalescences := [("g", 0, 5)] } 3
        (fun _ _ => none) (fun _ => true) (some Json.null)
      = some ([{ condition_result := cr, events := [] }],
          { rules := [rule], coalescences := [("g", 0, 5)] }) ∧
    Engine.run { rules := [rule], coalescences := [("g", 0, 5)] } 7
        (fun _ _ => none) (fun _ => true) (some Json.null)
      = some ([{ condition_result := cr, events := [ev] }],
          { rules := [rule], coalescences := [("g", 7, 5)] })) :=
  ⟨by decide, by decide, by decide,
    coalescence_window "g" 5 0 3 7 Json.null (fun _ => true)
      (by decide) (by decide) (by decide)⟩
